import Mathlib

set_option maxHeartbeats 1000000

/- Shallow embedding of `src/llama_perf.py`.

   Machine floating point is modelled by exact rational arithmetic.  The
   numeric-library primitives whose values are irrational (`mx.rsqrt`, the
   `exp` inside `mx.softmax`, the `sigmoid` inside `nn.silu`, the RoPE
   cos/sin tables and `head_dim ** -0.5`) are threaded through everything as
   an abstract record `Prims`, so each theorem below holds for every
   interpretation of those primitives.  Array axes are modelled functionally:
   an array is a record of its shape together with a total map from indices
   to rationals (indices outside the shape are never consulted by any
   operation that mirrors a source operation). -/

/-- `ModelArgs` dataclass of llama_perf.py (field for field). -/
structure ModelArgs where
  dim : ℕ
  n_layers : ℕ
  head_dim : ℕ
  hidden_dim : ℕ
  n_heads : ℕ
  n_kv_heads : ℕ
  norm_eps : ℚ
  vocab_size : ℕ
  rope_theta : ℚ
  rope_traditional : Bool

/-- Abstract numeric primitives supplied by the mlx array library.
    `cosTheta pos i` and `sinTheta pos i` model the entries of
    `RoPE.create_cos_sin_theta` for absolute position `pos` and rotation pair
    `i` (they encode `cos/sin (pos * base ^ (-2 i / dims))`); `powNegHalf n`
    models `n ** -0.5` (the attention scale). -/
structure Prims where
  rsqrt : ℚ → ℚ
  exp : ℚ → ℚ
  sigmoid : ℚ → ℚ
  powNegHalf : ℕ → ℚ
  cosTheta : ℕ → ℕ → ℚ
  sinTheta : ℕ → ℕ → ℚ

/-- A hidden-state array `[B, L, D]`, as a total index map (batch, position,
    feature).  Entries outside the shape are irrelevant garbage. -/
abbrev H3 : Type := ℕ → ℕ → ℕ → ℚ

/-- A rank-4 mlx array `[n0, n1, n2, n3]` (batch, heads, sequence, head_dim)
    with explicit shape, as produced by the attention reshapes. -/
structure Arr4 where
  n0 : ℕ
  n1 : ℕ
  n2 : ℕ
  n3 : ℕ
  val : ℕ → ℕ → ℕ → ℕ → ℚ

/-- `mx.concatenate([a, b], axis=2)` (both arguments must agree on the other
    axes, as mlx checks at runtime). -/
def Arr4.concat2 (a b : Arr4) : Arr4 :=
  ⟨a.n0, a.n1, a.n2 + b.n2, a.n3,
   fun i j k l => if k < a.n2 then a.val i j k l else b.val i j (k - a.n2) l⟩

/-- `nn.Linear(inDim, outDim, bias=False)`: `y = x @ W.T`, applied at every
    (batch, position) of a `[B, L, inDim]` input. -/
def applyLinear (W : ℕ → ℕ → ℚ) (inDim : ℕ) (x : H3) : H3 :=
  fun b l o => ∑ d ∈ Finset.range inDim, W o d * x b l d

/-- `RMSNorm.__call__`: `weight * (x * rsqrt(x.square().mean(-1) + eps))`.
    The `astype(float32)` up/down casts are identities in exact arithmetic. -/
def rmsnorm (dim : ℕ) (eps : ℚ) (P : Prims) (w : ℕ → ℚ) (x : H3) : H3 :=
  fun b l d =>
    w d * (x b l d * P.rsqrt ((∑ i ∈ Finset.range dim, x b l i ^ 2) / (dim : ℚ) + eps))

/-- `RoPE.__call__` restricted to one position: rotate the feature vector `v`
    sitting at absolute position `pos` (= offset + row index).  `traditional`
    pairs coordinates `(2i, 2i+1)`; the non-traditional layout pairs
    `(i, i + dims/2)`. -/
def ropeApply (P : Prims) (traditional : Bool) (dims : ℕ) (pos : ℕ) (v : ℕ → ℚ) :
    ℕ → ℚ :=
  fun e =>
    if traditional then
      if e % 2 = 0 then
        P.cosTheta pos (e / 2) * v e - P.sinTheta pos (e / 2) * v (e + 1)
      else
        P.sinTheta pos (e / 2) * v (e - 1) + P.cosTheta pos (e / 2) * v e
    else
      if e < dims / 2 then
        P.cosTheta pos e * v e - P.sinTheta pos e * v (e + dims / 2)
      else
        P.sinTheta pos (e - dims / 2) * v (e - dims / 2) +
          P.cosTheta pos (e - dims / 2) * v e

/-- `x.reshape(B, L, H, -1).transpose(0, 2, 1, 3)` applied to the output of a
    q/k/v projection: split the flat feature axis into `H` heads of `hd`. -/
def splitHeads (H hd B L : ℕ) (t : H3) : Arr4 :=
  ⟨B, H, L, hd, fun b h l e => t b l (h * hd + e)⟩

/-- The local `repeat` closure of `Attention.__call__`:
    `concatenate([expand_dims(a, 2)] * repeats, axis=2).reshape(B, n_heads, L, -1)`;
    output head `h` reads key/value head `h / repeats`. -/
def repeatKV (repeats n_heads : ℕ) (t : Arr4) : Arr4 :=
  ⟨t.n0, n_heads, t.n2, t.n3, fun b h l e => t.val b (h / repeats) l e⟩

/-- `self.rope(t, offset)`: rotate every row `l` of the sequence axis at its
    absolute position `offset + l`. -/
def ropeArr (P : Prims) (traditional : Bool) (dims offset : ℕ) (t : Arr4) : Arr4 :=
  ⟨t.n0, t.n1, t.n2, t.n3,
   fun b h l e => ropeApply P traditional dims (offset + l) (fun i => t.val b h l i) e⟩

/-- `mx.softmax(scores, axis=-1)` over `n` columns, combined with the additive
    mask: a masked-out column (`allowed = false`) carries the mask value
    `-1e9`, which `create_additive_causal_mask` uses as a stand-in for `-inf`
    (its own comment says so); in the exact model a masked column contributes
    weight 0 and is excluded from the normalising sum. -/
def maskedSoftmax (P : Prims) (n : ℕ) (allowed : ℕ → Bool) (s : ℕ → ℚ) (k : ℕ) : ℚ :=
  if allowed k then
    P.exp (s k) / ∑ j ∈ (Finset.range n).filter (fun j => allowed j = true), P.exp (s j)
  else 0

/-- `scores = (queries * self.scale) @ keys.transpose(0, 1, 3, 2)`. -/
def attnScores (P : Prims) (hd : ℕ) (q k : Arr4) : ℕ → ℕ → ℕ → ℕ → ℚ :=
  fun b h p j => ∑ e ∈ Finset.range hd, q.val b h p e * P.powNegHalf hd * k.val b h j e

/-- `mx.softmax(scores + mask)` row by row; with the causal mask row `p` only
    admits columns `j ≤ p`, without a mask every column is admitted. -/
def attnWeights (P : Prims) (useMask : Bool) (n : ℕ)
    (scores : ℕ → ℕ → ℕ → ℕ → ℚ) : ℕ → ℕ → ℕ → ℕ → ℚ :=
  fun b h p k => maskedSoftmax P n (fun j => !useMask || decide (j ≤ p)) (scores b h p) k

/-- `(scores @ values).transpose(0, 2, 1, 3).reshape(B, L, -1)`: merge heads
    back into a flat feature axis (`o = h * hd + e`). -/
def attnMerge (hd n : ℕ) (w : ℕ → ℕ → ℕ → ℕ → ℚ) (v : Arr4) : H3 :=
  fun b l o => ∑ k ∈ Finset.range n, w b (o / hd) l k * v.val b (o / hd) k (o % hd)

/-- Per-layer weights of llama_perf.py (`Attention`, `RMSNorm`×2,
    `FeedForward` parameters of one `TransformerBlock`). -/
structure LayerWeights where
  wq : ℕ → ℕ → ℚ
  wk : ℕ → ℕ → ℚ
  wv : ℕ → ℕ → ℚ
  wo : ℕ → ℕ → ℚ
  attention_norm : ℕ → ℚ
  ffn_norm : ℕ → ℚ
  w1 : ℕ → ℕ → ℚ
  w2 : ℕ → ℕ → ℚ
  w3 : ℕ → ℕ → ℚ

/-- `Attention.__call__`.  `useMask = true` models passing the additive causal
    mask, `cache` the optional `(key_cache, value_cache)` pair.  Returns the
    attention output and the updated `(keys, values)` cache pair. -/
def Attention.call (a : ModelArgs) (W : LayerWeights) (P : Prims) (B L : ℕ)
    (x : H3) (useMask : Bool) (cache : Option (Arr4 × Arr4)) :
    H3 × (Arr4 × Arr4) :=
  let repeats := a.n_heads / a.n_kv_heads
  let queries := splitHeads a.n_heads a.head_dim B L (applyLinear W.wq a.dim x)
  let keys0 := splitHeads a.n_kv_heads a.head_dim B L (applyLinear W.wk a.dim x)
  let values0 := splitHeads a.n_kv_heads a.head_dim B L (applyLinear W.wv a.dim x)
  let keys1 := repeatKV repeats a.n_heads keys0
  let values1 := repeatKV repeats a.n_heads values0
  let offset := match cache with | some c => c.1.n2 | none => 0
  let queriesR := ropeArr P a.rope_traditional a.head_dim offset queries
  let keysR := ropeArr P a.rope_traditional a.head_dim offset keys1
  let keysAll := match cache with | some c => Arr4.concat2 c.1 keysR | none => keysR
  let valuesAll := match cache with | some c => Arr4.concat2 c.2 values1 | none => values1
  let scores := attnScores P a.head_dim queriesR keysAll
  let w := attnWeights P useMask keysAll.n2 scores
  let merged := attnMerge a.head_dim valuesAll.n2 w valuesAll
  (applyLinear W.wo (a.n_heads * a.head_dim) merged, (keysAll, valuesAll))

/-- `nn.silu`: `z * sigmoid z`. -/
def silu (P : Prims) (z : ℚ) : ℚ := z * P.sigmoid z

/-- `FeedForward.__call__`: `w2(silu(w1 x) * w3 x)`. -/
def FeedForward.call (a : ModelArgs) (W : LayerWeights) (P : Prims) (x : H3) : H3 :=
  fun b l d =>
    ∑ m ∈ Finset.range a.hidden_dim,
      W.w2 d m * (silu P (applyLinear W.w1 a.dim x b l m) * applyLinear W.w3 a.dim x b l m)

/-- `TransformerBlock.__call__`: attention and feed-forward sub-blocks with
    RMS pre-normalisation and residual connections. -/
def TransformerBlock.call (a : ModelArgs) (W : LayerWeights) (P : Prims) (B L : ℕ)
    (x : H3) (useMask : Bool) (cache : Option (Arr4 × Arr4)) :
    H3 × (Arr4 × Arr4) :=
  let r := Attention.call a W P B L (rmsnorm a.dim a.norm_eps P W.attention_norm x) useMask cache
  let h : H3 := fun b l d => x b l d + r.1 b l d
  let r2 := FeedForward.call a W P (rmsnorm a.dim a.norm_eps P W.ffn_norm h)
  (fun b l d => h b l d + r2 b l d, r.2)

/-- Run the layer stack: each element pairs a layer's weights with the cache
    entry passed to it (`none` in full-forward / prompt mode).  Returns the
    final hidden states and the list of caches the layers returned, in layer
    order (this is the `for l in self.layers` / `for i in range(len(cache))`
    loop shared by `Llama.__call__` and `Llama.generate`). -/
def runLayers (a : ModelArgs) (P : Prims) (B L : ℕ) (useMask : Bool) :
    List (LayerWeights × Option (Arr4 × Arr4)) → H3 → H3 × List (Arr4 × Arr4)
  | [], x => (x, [])
  | (W, c) :: rest, x =>
    let r := TransformerBlock.call a W P B L x useMask c
    let r2 := runLayers a P B L useMask rest r.1
    (r2.1, r.2 :: r2.2)

/-- The `Llama` model: args plus every weight of llama_perf.py's `Llama`. -/
structure Model where
  args : ModelArgs
  tok_embeddings : ℕ → ℕ → ℚ
  layers : List LayerWeights
  norm : ℕ → ℚ
  output : ℕ → ℕ → ℚ

/-- `self.tok_embeddings(x)` for a `[B, L]` token array. -/
def Llama.embed (M : Model) (x : ℕ → ℕ → ℕ) : H3 :=
  fun b l d => M.tok_embeddings (x b l) d

/-- `Llama.__call__` (full-forward mode): causal mask, no caches, logits for
    every position. -/
def Llama.call (M : Model) (P : Prims) (B L : ℕ) (x : ℕ → ℕ → ℕ) : H3 :=
  let r := runLayers M.args P B L true (M.layers.map (fun W => (W, none))) (Llama.embed M x)
  let xo := rmsnorm M.args.dim M.args.norm_eps P M.norm r.1
  fun b l v => ∑ d ∈ Finset.range M.args.dim, M.output v d * xo b l d

/-- `mx.argmax(logits, axis=-1)` over `n` classes: index of the maximum,
    first occurrence on ties. -/
def argmaxIdx (n : ℕ) (f : ℕ → ℚ) : ℕ :=
  (List.range n).foldl (fun best i => if f best < f i then i else best) 0

/-- The `sample` closure of `Llama.generate`.  `rng step b scaled` models one
    draw of `mx.random.categorical` from the global PRNG state (`step` is the
    index of the draw in the run, `scaled` the scaled logits row of batch
    element `b`). -/
def Llama.sample (M : Model) (temp : ℚ) (rng : ℕ → ℕ → (ℕ → ℚ) → ℕ) (step : ℕ)
    (logits : ℕ → ℕ → ℚ) : ℕ → ℕ :=
  fun b =>
    if temp = 0 then argmaxIdx M.args.vocab_size (logits b)
    else rng step b (fun v => logits b v * (1 / temp))

/-- Prompt-ingestion phase of `Llama.generate`: run the layers over the whole
    prompt with the causal mask and empty caches, collect the per-layer
    caches, and keep only the logits of the last position (`self.output(x[:, -1])`). -/
def Llama.promptStep (M : Model) (P : Prims) (B L : ℕ) (x : ℕ → ℕ → ℕ) :
    (ℕ → ℕ → ℚ) × List (Arr4 × Arr4) :=
  let r := runLayers M.args P B L true (M.layers.map (fun W => (W, none))) (Llama.embed M x)
  let xo := rmsnorm M.args.dim M.args.norm_eps P M.norm r.1
  (fun b v => ∑ d ∈ Finset.range M.args.dim, M.output v d * xo b (L - 1) d, r.2)

/-- One decode step of `Llama.generate`'s `while True` loop: embed the fed-back
    token `y` as a length-1 sequence, run every layer with `mask=None` and its
    cache entry, and return the new single position's logits together with the
    overwritten cache list. -/
def Llama.decodeStep (M : Model) (P : Prims) (B : ℕ) (cache : List (Arr4 × Arr4))
    (y : ℕ → ℕ) : (ℕ → ℕ → ℚ) × List (Arr4 × Arr4) :=
  let x0 : H3 := fun b _ d => M.tok_embeddings (y b) d
  let r := runLayers M.args P B 1 false (M.layers.zip (cache.map some)) x0
  let xo := rmsnorm M.args.dim M.args.norm_eps P M.norm r.1
  (fun b v => ∑ d ∈ Finset.range M.args.dim, M.output v d * xo b 0 d, r.2)

/-- The state of `Llama.generate` after its `n`-th yield: the sampled token
    array `y` (per batch element) and the per-layer cache list.  `n = 0` is
    the state at the first yield (prompt just ingested). -/
def Llama.genState (M : Model) (P : Prims) (rng : ℕ → ℕ → (ℕ → ℚ) → ℕ) (temp : ℚ)
    (B L : ℕ) (x : ℕ → ℕ → ℕ) : ℕ → (ℕ → ℕ) × List (Arr4 × Arr4)
  | 0 =>
    let r := Llama.promptStep M P B L x
    (Llama.sample M temp rng 0 r.1, r.2)
  | n + 1 =>
    let s := Llama.genState M P rng temp B L x n
    let r := Llama.decodeStep M P B s.2 s.1
    (Llama.sample M temp rng (n + 1) r.1, r.2)

/-- The `n`-th token array yielded by the `Llama.generate` generator. -/
def Llama.genTok (M : Model) (P : Prims) (rng : ℕ → ℕ → (ℕ → ℚ) → ℕ) (temp : ℚ)
    (B L : ℕ) (x : ℕ → ℕ → ℕ) (n : ℕ) : ℕ → ℕ :=
  (Llama.genState M P rng temp B L x n).1

/-- The SentencePiece collaborator: `encode`, `decode` and the fixed
    beginning-of-sequence id.  Python strings are modelled as `List Char`. -/
structure Tokenizer where
  bos_id : ℕ
  encode : List Char → List ℕ
  decode : List ℕ → List Char

/-- The CLI arguments consumed by the driver `generate` function. -/
structure DriverArgs where
  prompt : List Char
  max_tokens : ℤ
  write_every : ℕ
  temp : ℚ

/-- `ModelStats`, restricted to the token counters (the wall-clock timestamp
    fields measure real time, which has no shallow embedding; nothing below
    depends on them). -/
structure ModelStats where
  num_tokens_prompt : ℕ
  num_tokens_response : ℕ

/-- The driver's `for token in model.generate(...)` loop, from a given state
    `(tokens, skip, printed)`.  Each iteration appends the next streamed
    token, breaks once `len(tokens) >= max_tokens`, and otherwise, when
    `len(tokens) % write_every == 0`, decodes all tokens so far and prints the
    suffix `s[skip:]` (incremental detokenization).  The `len(tokens) == 1`
    branch of the source only records a timestamp and forces evaluation, so it
    has no model.  Returns the final `(tokens, skip, printed)`. -/
def genLoop (stream : ℕ → ℕ) (maxT : ℤ) (writeE : ℕ) (dec : List ℕ → List Char)
    (tokens : List ℕ) (skip : ℕ) (printed : List (List Char)) :
    List ℕ × ℕ × List (List Char) :=
  let tokens' := tokens ++ [stream tokens.length]
  if (tokens'.length : ℤ) ≥ maxT then (tokens', skip, printed)
  else if tokens'.length % writeE = 0 then
    let s := dec tokens'
    genLoop stream maxT writeE dec tokens' s.length (printed ++ [s.drop skip])
  else genLoop stream maxT writeE dec tokens' skip printed
termination_by (maxT - tokens.length).toNat
decreasing_by
  all_goals
    simp only [tokens', List.length_append, List.length_cons, List.length_nil] at *
    omega

/-- The driver function `generate(args, stats)` of llama_perf.py: build the
    input `[[bos] + encode(prompt)]`, record `num_tokens_prompt`, consume the
    model's generation stream through `genLoop`, print the final suffix, and
    record `num_tokens_response`.  Returns the stats, the consumed token list
    and the list of printed text pieces (in print order, final piece
    included). -/
def generate (M : Model) (P : Prims) (rng : ℕ → ℕ → (ℕ → ℚ) → ℕ) (tok : Tokenizer)
    (args : DriverArgs) : ModelStats × List ℕ × List (List Char) :=
  let x : List ℕ := tok.bos_id :: tok.encode args.prompt
  let stream : ℕ → ℕ := fun n =>
    Llama.genTok M P rng args.temp 1 x.length (fun _ l => x.getD l 0) n 0
  let r := genLoop stream args.max_tokens args.write_every tok.decode [] 0 []
  let s := tok.decode r.1
  ({ num_tokens_prompt := x.length - 1, num_tokens_response := r.1.length },
   r.1, r.2.2 ++ [s.drop r.2.1])

/-- The `config.json` dictionary as read by `sanitize_config`: required keys
    as plain fields, optional keys as `Option`s (`none` = key absent). -/
structure Config where
  model_type : Option (List Char)
  dim : ℕ
  n_layers : ℕ
  n_heads : ℕ
  n_kv_heads : Option ℕ
  head_dim : Option ℕ
  hidden_dim : Option ℕ
  vocab_size : Option ℤ
  norm_eps : ℚ
  rope_theta : Option ℚ
  multiple_of : Option ℤ
  ffn_dim_multiplier : Option ℤ

/-- `sanitize_config(config, weights)`.  `weights` maps a parameter name to
    the shape of the loaded tensor (only the two shapes the source reads are
    ever consulted). -/
def sanitize_config (config : Config) (weights : String → List ℕ) : Config :=
  let config := { config with model_type := none }
  let n_heads := config.n_heads
  let config :=
    if config.n_kv_heads = none then { config with n_kv_heads := some n_heads } else config
  let config :=
    if config.head_dim = none then
      { config with head_dim := some (config.dim / n_heads) } else config
  let config :=
    if config.hidden_dim = none then
      { config with hidden_dim := some ((weights "layers.0.feed_forward.w1.weight").headD 0) }
    else config
  let config :=
    if config.vocab_size.getD (-1) < 0 then
      { config with vocab_size := some ((weights "output.weight").getLastD 0 : ℤ) }
    else config
  let config :=
    if config.rope_theta = none then { config with rope_theta := some 10000 } else config
  { config with multiple_of := none, ffn_dim_multiplier := none }

/-- Python's `/` on a number and an integer count: raises `ZeroDivisionError`
    when the divisor is zero, modelled as `Except`. -/
def pyDiv (a b : ℚ) : Except Unit ℚ :=
  if b = 0 then Except.error () else Except.ok (a / b)

/-- The per-token-rate statistics the `__main__` block prints (source lines
    347-350), in print order: prompt ms/token, prompt token/s, response
    ms/token, response token/s.  `promptTime`/`evalTime` are the elapsed
    wall-clock spans `end_prompt - start_gen` and `end_gen - end_prompt`. -/
def statsReport (promptTime evalTime : ℚ) (stats : ModelStats) :
    Except Unit (ℚ × ℚ × ℚ × ℚ) := do
  let a ← pyDiv (promptTime * 1000) (stats.num_tokens_prompt : ℚ)
  let b ← pyDiv (stats.num_tokens_prompt : ℚ) promptTime
  let c ← pyDiv (evalTime * 1000) (stats.num_tokens_response : ℚ)
  let d ← pyDiv (stats.num_tokens_response : ℚ) evalTime
  return (a, b, c, d)

/- Concrete instances used by witnesses and counterexamples. -/

/-- A concrete interpretation of the numeric primitives. -/
def P0 : Prims := ⟨fun _ => 1, fun _ => 1, fun _ => 1, fun _ => 1, fun _ _ => 1, fun _ _ => 0⟩

/-- A concrete PRNG draw function. -/
def rng0 : ℕ → ℕ → (ℕ → ℚ) → ℕ := fun _ _ _ => 0

/-- All-zero layer weights (norm scales 1). -/
def W0 : LayerWeights :=
  ⟨fun _ _ => 0, fun _ _ => 0, fun _ _ => 0, fun _ _ => 0,
   fun _ => 1, fun _ => 1, fun _ _ => 0, fun _ _ => 0, fun _ _ => 0⟩

/-- Minimal args: one dimension, zero layers, two-token vocabulary. -/
def args0 : ModelArgs := ⟨1, 0, 1, 1, 1, 1, 0, 2, 10000, true⟩

/-- Minimal model with zero layers. -/
def M0 : Model := ⟨args0, fun t _ => (t : ℚ), [], fun _ => 1, fun _ _ => 1⟩

/-- Args of a one-layer model. -/
def args1 : ModelArgs := ⟨1, 1, 1, 1, 1, 1, 0, 2, 10000, true⟩

/-- One-layer model. -/
def M1 : Model := ⟨args1, fun t _ => (t : ℚ), [W0], fun _ => 1, fun _ _ => 1⟩

/-- Grouped-query args: two query heads sharing one key/value head. -/
def args2 : ModelArgs := ⟨2, 1, 1, 1, 2, 1, 0, 2, 10000, true⟩

/-- A concrete hidden-state input. -/
def x2 : H3 := fun _ _ _ => 1

/-- Tokenizer whose decoder emits one `a` per token (prefix-monotone). -/
def tokA : Tokenizer := ⟨1, fun _ => [], fun t => List.replicate t.length 'a'⟩

/-- Tokenizer encoding every prompt to `[5, 9, 2]`. -/
def tok592 : Tokenizer := ⟨1, fun _ => [5, 9, 2], fun t => List.replicate t.length 'a'⟩

/-- Tokenizer whose decoder rewrites earlier characters when the second token
    arrives (`[t] ↦ "ab"`, longer ↦ `"xyz"`): not prefix-monotone. -/
def tok7 : Tokenizer :=
  ⟨1, fun _ => [], fun t => if t.length ≤ 1 then ['a', 'b'] else ['x', 'y', 'z']⟩

/-- Driver args: `max_tokens = 1`. -/
def dargs1 : DriverArgs := ⟨[], 1, 1, 0⟩

/-- Driver args: `max_tokens = 2`. -/
def dargs2 : DriverArgs := ⟨[], 2, 1, 0⟩

/-- Driver args: `max_tokens = 4`. -/
def dargs4 : DriverArgs := ⟨[], 4, 1, 0⟩

/-- Driver args: `max_tokens = 0`. -/
def dargs0 : DriverArgs := ⟨[], 0, 1, 0⟩

/-- A config with every optional key absent. -/
def cfg0 : Config := ⟨none, 8, 2, 4, none, none, none, none, 1 / 100000, none, none, none⟩

/-- A config with every optional key present (and non-negative vocab). -/
def cfgFull : Config :=
  ⟨some ['l'], 8, 2, 4, some 2, some 3, some 32, some 100, 1 / 100000, some 500000,
   some 256, some 1⟩

/-- Concrete loaded-weights shape table. -/
def wts0 : String → List ℕ := fun s =>
  if s = "layers.0.feed_forward.w1.weight" then [32, 8]
  else if s = "output.weight" then [100, 8] else []


/- ------------------------------------------------------------------ -/
/- Theorems                                                            -/
/- ------------------------------------------------------------------ -/

/-- Field-wise normal form of `sanitize_config`. -/
theorem sanitize_config_fields (config : Config) (weights : String → List ℕ) :
    sanitize_config config weights =
      { model_type := none
        dim := config.dim
        n_layers := config.n_layers
        n_heads := config.n_heads
        n_kv_heads := some (config.n_kv_heads.getD config.n_heads)
        head_dim := some (config.head_dim.getD (config.dim / config.n_heads))
        hidden_dim := some (config.hidden_dim.getD
          ((weights "layers.0.feed_forward.w1.weight").headD 0))
        vocab_size := if config.vocab_size.getD (-1) < 0 then
            some ((weights "output.weight").getLastD 0 : ℤ)
          else config.vocab_size
        norm_eps := config.norm_eps
        rope_theta := some (config.rope_theta.getD 10000)
        multiple_of := none
        ffn_dim_multiplier := none } := by
  obtain ⟨mt, dim, nl, nh, nkv, hd, hdim, vs, eps, rt, mo, fdm⟩ := config
  by_cases hv : vs.getD (-1) < 0 <;>
    rcases nkv with _ | nkv <;> rcases hd with _ | hd <;> rcases hdim with _ | hdim <;>
      rcases rt with _ | rt <;>
        simp [sanitize_config, hv]

/-- C6: for every config dictionary, `sanitize_config` fills each missing
    optional field with its default — `n_kv_heads` with `n_heads`, `head_dim`
    with `dim // n_heads`, `hidden_dim` with `layers.0.feed_forward.w1.weight`'s
    first shape entry, `rope_theta` with `10000` — and leaves each of these
    fields unchanged when it is already present. -/
theorem c6_sanitize_defaults (config : Config) (weights : String → List ℕ) :
    (config.n_kv_heads = none →
      (sanitize_config config weights).n_kv_heads = some config.n_heads) ∧
    (∀ v, config.n_kv_heads = some v →
      (sanitize_config config weights).n_kv_heads = some v) ∧
    (config.head_dim = none →
      (sanitize_config config weights).head_dim = some (config.dim / config.n_heads)) ∧
    (∀ v, config.head_dim = some v →
      (sanitize_config config weights).head_dim = some v) ∧
    (config.hidden_dim = none →
      (sanitize_config config weights).hidden_dim =
        some ((weights "layers.0.feed_forward.w1.weight").headD 0)) ∧
    (∀ v, config.hidden_dim = some v →
      (sanitize_config config weights).hidden_dim = some v) ∧
    (config.rope_theta = none →
      (sanitize_config config weights).rope_theta = some 10000) ∧
    (∀ v, config.rope_theta = some v →
      (sanitize_config config weights).rope_theta = some v) := by
  rw [sanitize_config_fields]
  refine ⟨fun h => ?_, fun v h => ?_, fun h => ?_, fun v h => ?_, fun h => ?_,
    fun v h => ?_, fun h => ?_, fun v h => ?_⟩ <;> simp [h]

/-- C6 witness: the defaults at a config with all optional keys absent, and
    preservation at a config with all optional keys present. -/
theorem c6_witness :
    (sanitize_config cfg0 wts0).n_kv_heads = some 4 ∧
    (sanitize_config cfg0 wts0).head_dim = some 2 ∧
    (sanitize_config cfg0 wts0).hidden_dim = some 32 ∧
    (sanitize_config cfg0 wts0).rope_theta = some 10000 ∧
    (sanitize_config cfgFull wts0).n_kv_heads = some 2 ∧
    (sanitize_config cfgFull wts0).head_dim = some 3 ∧
    (sanitize_config cfgFull wts0).rope_theta = some 500000 :=
  ⟨(c6_sanitize_defaults cfg0 wts0).1 rfl,
   (c6_sanitize_defaults cfg0 wts0).2.2.1 rfl,
   (c6_sanitize_defaults cfg0 wts0).2.2.2.2.1 rfl,
   (c6_sanitize_defaults cfg0 wts0).2.2.2.2.2.2.1 rfl,
   (c6_sanitize_defaults cfgFull wts0).2.1 2 rfl,
   (c6_sanitize_defaults cfgFull wts0).2.2.2.1 3 rfl,
   (c6_sanitize_defaults cfgFull wts0).2.2.2.2.2.2.2 500000 rfl⟩

/-- C9: when `vocab_size` is absent or negative, `sanitize_config` replaces it
    with the last shape entry of the loaded `output.weight`; a present
    non-negative `vocab_size` is kept. -/
theorem c9_vocab_default (config : Config) (weights : String → List ℕ) :
    ((config.vocab_size = none ∨ ∃ v, config.vocab_size = some v ∧ v < 0) →
      (sanitize_config config weights).vocab_size =
        some ((weights "output.weight").getLastD 0 : ℤ)) ∧
    (∀ v, config.vocab_size = some v → 0 ≤ v →
      (sanitize_config config weights).vocab_size = some v) := by
  rw [sanitize_config_fields]
  constructor
  · rintro (h | ⟨v, h, hv⟩)
    · simp [h]
    · simp [h, hv]
  · intro v h hv
    simp only [h, Option.getD_some]
    rw [if_neg (by omega)]

/-- C9 witness: vocab defaulting at an absent key, preservation at
    `vocab_size = 100`. -/
theorem c9_witness :
    (sanitize_config cfg0 wts0).vocab_size = some 8 ∧
    (sanitize_config cfgFull wts0).vocab_size = some 100 :=
  ⟨(c9_vocab_default cfg0 wts0).1 (Or.inl rfl),
   (c9_vocab_default cfgFull wts0).2 100 rfl (by decide)⟩

/-- The claim that the cache pair returned by `Attention.__call__` has
    `n_kv_heads` on its head axis fails when `n_kv_heads < n_heads`: the
    source repeats the key/value heads to `n_heads` *before* concatenating
    with (and returning) the cache, so the stored head axis is `n_heads`.
    Counterexample: `n_heads = 2`, `n_kv_heads = 1`. -/
theorem c2_counterexample :
    ¬ ((Attention.call args2 W0 P0 1 1 x2 true none).2.1.n1 = args2.n_kv_heads ∧
       (Attention.call args2 W0 P0 1 1 x2 true none).2.2.n1 = args2.n_kv_heads) := by
  decide

/-- Shape of the cache pair returned by `Attention.__call__` (helper):
    head axis `n_heads`, sequence axis grown by `L`. -/
theorem attn_cache_shape (a : ModelArgs) (W : LayerWeights) (P : Prims) (B L : ℕ)
    (x : H3) (useMask : Bool) (cache : Option (Arr4 × Arr4))
    (h : ∀ c ∈ cache, c.1.n0 = B ∧ c.1.n1 = a.n_heads ∧ c.1.n3 = a.head_dim ∧
      c.2.n0 = B ∧ c.2.n1 = a.n_heads ∧ c.2.n3 = a.head_dim) :
    ((Attention.call a W P B L x useMask cache).2.1.n0 = B ∧
     (Attention.call a W P B L x useMask cache).2.1.n1 = a.n_heads ∧
     (Attention.call a W P B L x useMask cache).2.1.n2 =
       (match cache with | none => 0 | some c => c.1.n2) + L ∧
     (Attention.call a W P B L x useMask cache).2.1.n3 = a.head_dim) ∧
    ((Attention.call a W P B L x useMask cache).2.2.n0 = B ∧
     (Attention.call a W P B L x useMask cache).2.2.n1 = a.n_heads ∧
     (Attention.call a W P B L x useMask cache).2.2.n2 =
       (match cache with | none => 0 | some c => c.2.n2) + L ∧
     (Attention.call a W P B L x useMask cache).2.2.n3 = a.head_dim) := by
  rcases cache with _ | c
  · simp [Attention.call, splitHeads, repeatKV, ropeArr]
  · obtain ⟨h1, h2, h3, h4, h5, h6⟩ := h c rfl
    simp [Attention.call, Arr4.concat2, splitHeads, repeatKV, ropeArr, h1, h2, h3, h4, h5, h6]

/-- C2 (amended): the `(keys, values)` pair `Attention.__call__` returns for
    the cache is shaped `[batch, n_heads, sequence-so-far, head_dim]` — the
    head axis holds the full query-head count `n_heads`, not `n_kv_heads`,
    because grouped-query repetition happens before caching (in particular the
    two counts differ whenever `n_kv_heads < n_heads`). -/
theorem c2_cache_head_axis (a : ModelArgs) (W : LayerWeights) (P : Prims) (B L : ℕ)
    (x : H3) (useMask : Bool) (cache : Option (Arr4 × Arr4))
    (h : ∀ c ∈ cache, c.1.n0 = B ∧ c.1.n1 = a.n_heads ∧ c.1.n3 = a.head_dim ∧
      c.2.n0 = B ∧ c.2.n1 = a.n_heads ∧ c.2.n3 = a.head_dim) :
    ((Attention.call a W P B L x useMask cache).2.1.n0 = B ∧
     (Attention.call a W P B L x useMask cache).2.1.n1 = a.n_heads ∧
     (Attention.call a W P B L x useMask cache).2.1.n2 =
       (match cache with | none => 0 | some c => c.1.n2) + L ∧
     (Attention.call a W P B L x useMask cache).2.1.n3 = a.head_dim) ∧
    ((Attention.call a W P B L x useMask cache).2.2.n0 = B ∧
     (Attention.call a W P B L x useMask cache).2.2.n1 = a.n_heads ∧
     (Attention.call a W P B L x useMask cache).2.2.n2 =
       (match cache with | none => 0 | some c => c.2.n2) + L ∧
     (Attention.call a W P B L x useMask cache).2.2.n3 = a.head_dim) :=
  attn_cache_shape a W P B L x useMask cache h

/-- C2 witness: the shape at a concrete grouped-query call without a cache. -/
theorem c2_witness :
    ((Attention.call args2 W0 P0 1 3 x2 true none).2.1.n0 = 1 ∧
     (Attention.call args2 W0 P0 1 3 x2 true none).2.1.n1 = args2.n_heads ∧
     (Attention.call args2 W0 P0 1 3 x2 true none).2.1.n2 = 3 ∧
     (Attention.call args2 W0 P0 1 3 x2 true none).2.1.n3 = args2.head_dim) ∧
    ((Attention.call args2 W0 P0 1 3 x2 true none).2.2.n0 = 1 ∧
     (Attention.call args2 W0 P0 1 3 x2 true none).2.2.n1 = args2.n_heads ∧
     (Attention.call args2 W0 P0 1 3 x2 true none).2.2.n2 = 3 ∧
     (Attention.call args2 W0 P0 1 3 x2 true none).2.2.n3 = args2.head_dim) :=
  c2_cache_head_axis args2 W0 P0 1 3 x2 true none (by intro c hc; cases hc)

/-- Helper: `runLayers` returns one cache entry per layer it was given. -/
theorem runLayers_cache_length (a : ModelArgs) (P : Prims) (B L : ℕ) (m : Bool)
    (lws : List (LayerWeights × Option (Arr4 × Arr4))) (x : H3) :
    ((runLayers a P B L m lws x).2).length = lws.length := by
  induction lws generalizing x with
  | nil => rfl
  | cons hd tl ih =>
    obtain ⟨W, c⟩ := hd
    simp [runLayers, ih]

/-- Helper: the sequence axis of the cache pair a `TransformerBlock` call
    returns. -/
theorem block_cache_n2 (a : ModelArgs) (W : LayerWeights) (P : Prims) (B L : ℕ)
    (x : H3) (useMask : Bool) (cache : Option (Arr4 × Arr4)) :
    ((TransformerBlock.call a W P B L x useMask cache).2.1.n2 =
      (match cache with | none => 0 | some c => c.1.n2) + L) ∧
    ((TransformerBlock.call a W P B L x useMask cache).2.2.n2 =
      (match cache with | none => 0 | some c => c.2.n2) + L) := by
  rcases cache with _ | c <;>
    simp [TransformerBlock.call, Attention.call, Arr4.concat2, splitHeads, repeatKV, ropeArr]

/-- Helper: prompt ingestion (mask, no caches) produces caches whose sequence
    axis is exactly the prompt length, at every layer. -/
theorem runLayers_cache_n2_ingest (a : ModelArgs) (P : Prims) (B L : ℕ)
    (Ws : List LayerWeights) (x : H3) :
    ∀ c ∈ (runLayers a P B L true (Ws.map (fun W => (W, none))) x).2,
      c.1.n2 = L ∧ c.2.n2 = L := by
  induction Ws generalizing x with
  | nil => simp [runLayers]
  | cons W tl ih =>
    intro c hc
    simp only [List.map_cons, runLayers, List.mem_cons] at hc
    rcases hc with rfl | hmem
    · simpa using block_cache_n2 a W P B L x true none
    · exact ih _ _ hmem

/-- Helper: one decode step (no mask, one position) grows every returned cache
    entry's sequence axis by exactly one. -/
theorem runLayers_cache_n2_step (a : ModelArgs) (P : Prims) (B : ℕ)
    (Ws : List LayerWeights) (cs : List (Arr4 × Arr4)) (x : H3) (m : ℕ)
    (h : ∀ c ∈ cs, c.1.n2 = m ∧ c.2.n2 = m) :
    ∀ c' ∈ (runLayers a P B 1 false (Ws.zip (cs.map some)) x).2,
      c'.1.n2 = m + 1 ∧ c'.2.n2 = m + 1 := by
  induction Ws generalizing cs x with
  | nil => simp [runLayers]
  | cons W tl ih =>
    rcases cs with _ | ⟨c, cs'⟩
    · simp [runLayers]
    · intro c' hc'
      simp only [List.map_cons, List.zip_cons_cons, runLayers, List.mem_cons] at hc'
      rcases hc' with rfl | hmem
      · have hb := block_cache_n2 a W P B 1 x false (some c)
        obtain ⟨h1, h2⟩ := h c (List.mem_cons_self c cs')
        simpa [h1, h2] using hb
      · exact ih cs' _ (fun d hd => h d (List.mem_cons_of_mem _ hd)) _ hmem

/-- C8: after prompt ingestion of `L` tokens the generation state holds one
    cache pair per layer with sequence axis exactly `L`, and each decode step
    concatenates exactly one position to every layer's cache, so after `k`
    decode steps every layer's keys and values have sequence axis `L + k` —
    the same value at every layer. -/
theorem c8_cache_growth (M : Model) (P : Prims) (rng : ℕ → ℕ → (ℕ → ℚ) → ℕ)
    (temp : ℚ) (B L : ℕ) (x : ℕ → ℕ → ℕ) (k : ℕ) :
    ((Llama.genState M P rng temp B L x k).2).length = M.layers.length ∧
    ∀ i : Fin ((Llama.genState M P rng temp B L x k).2).length,
      (((Llama.genState M P rng temp B L x k).2).get i).1.n2 = L + k ∧
      (((Llama.genState M P rng temp B L x k).2).get i).2.n2 = L + k := by
  have key : ∀ k, ((Llama.genState M P rng temp B L x k).2).length = M.layers.length ∧
      ∀ c ∈ (Llama.genState M P rng temp B L x k).2,
        c.1.n2 = L + k ∧ c.2.n2 = L + k := by
    intro k
    induction k with
    | zero =>
      constructor
      · simp [Llama.genState, Llama.promptStep, runLayers_cache_length]
      · intro c hc
        simpa using runLayers_cache_n2_ingest M.args P B L M.layers (Llama.embed M x) c hc
    | succ n ih =>
      constructor
      · simp only [Llama.genState, Llama.decodeStep]
        rw [runLayers_cache_length]
        simp [List.length_zip, ih.1]
      · intro c hc
        simp only [Llama.genState, Llama.decodeStep] at hc
        have := runLayers_cache_n2_step M.args P B M.layers
          (Llama.genState M P rng temp B L x n).2 _ (L + n) ih.2 c hc
        omega
  exact ⟨(key k).1, fun i => (key k).2 _ (List.get_mem _ i.1 i.2)⟩

/-- C3: with temperature 0 the sampler takes the arg-max of the logits, so the
    whole generation sequence is a function of the prompt and the weights
    alone — two runs differing only in the PRNG draw function yield the same
    token at every step. -/
theorem c3_greedy_deterministic (M : Model) (P : Prims) (temp : ℚ)
    (rng1 rng2 : ℕ → ℕ → (ℕ → ℚ) → ℕ) (B L : ℕ) (x : ℕ → ℕ → ℕ)
    (htemp : temp = 0) (n b : ℕ) :
    Llama.genTok M P rng1 temp B L x n b = Llama.genTok M P rng2 temp B L x n b := by
  subst htemp
  have hsample : ∀ r r' step lg, Llama.sample M 0 r step lg = Llama.sample M 0 r' step lg := by
    intro r r' step lg
    funext b
    unfold Llama.sample
    simp
  have key : ∀ m, Llama.genState M P rng1 0 B L x m = Llama.genState M P rng2 0 B L x m := by
    intro m
    induction m with
    | zero => simp only [Llama.genState, hsample rng1 rng2]
    | succ m ih => simp only [Llama.genState, ih, hsample rng1 rng2]
  simp [Llama.genTok, key n]

/-- C3 witness: two concrete runs with different PRNG draw functions agree at
    step 1. -/
theorem c3_witness :
    (0 : ℚ) = 0 ∧
    Llama.genTok M1 P0 rng0 0 1 1 (fun _ _ => 1) 1 0 =
      Llama.genTok M1 P0 (fun _ _ _ => 1) 0 1 1 (fun _ _ => 1) 1 0 :=
  ⟨rfl, c3_greedy_deterministic M1 P0 0 rng0 (fun _ _ _ => 1) 1 1 (fun _ _ => 1) rfl 1 0⟩

/-- Helper: appending the next streamed token to the first `n` streamed
    tokens gives the first `n + 1` streamed tokens. -/
theorem range_map_snoc (stream : ℕ → ℕ) (n : ℕ) :
    (List.range n).map stream ++ [stream n] = (List.range (n + 1)).map stream := by
  simp [List.range_succ]

/-- Helper: starting from the first `n` streamed tokens, the driver loop
    always ends holding the first `max max_tokens.toNat (n+1)` streamed
    tokens: it consumes at least one more token, and stops as soon as the
    count reaches `max_tokens`. -/
theorem genLoop_tokens (stream : ℕ → ℕ) (maxT : ℤ) (writeE : ℕ)
    (dec : List ℕ → List Char) (n skip : ℕ) (printed : List (List Char)) :
    (genLoop stream maxT writeE dec ((List.range n).map stream) skip printed).1 =
      (List.range (max maxT.toNat (n + 1))).map stream := by
  have main : ∀ (fuel : ℕ) (n skip : ℕ) (printed : List (List Char)), (maxT - (n : ℤ)).toNat ≤ fuel →
      (genLoop stream maxT writeE dec ((List.range n).map stream) skip printed).1 =
        (List.range (max maxT.toNat (n + 1))).map stream := by
    intro fuel
    induction fuel with
    | zero =>
      intro n skip printed hf
      rw [genLoop]
      simp only [List.length_append, List.length_map, List.length_range, List.length_cons,
        List.length_nil]
      rw [if_pos (by omega)]
      rw [range_map_snoc]
      have : max maxT.toNat (n + 1) = n + 1 := by omega
      rw [this]
    | succ f ih =>
      intro n skip printed hf
      rw [genLoop]
      simp only [List.length_append, List.length_map, List.length_range, List.length_cons,
        List.length_nil, range_map_snoc]
      split_ifs with h1 h2
      · have : max maxT.toNat (n + 1) = n + 1 := by omega
        rw [this]
      · rw [ih (n + 1) _ _ (by omega)]
        have : max maxT.toNat (n + 1 + 1) = max maxT.toNat (n + 1) := by omega
        rw [this]
      · rw [ih (n + 1) _ _ (by omega)]
        have : max maxT.toNat (n + 1 + 1) = max maxT.toNat (n + 1) := by omega
        rw [this]
  exact main ((maxT - n).toNat) n skip printed le_rfl

/-- Helper: the driver's `generate` always consumes exactly
    `max max_tokens.toNat 1` tokens from the model's generation stream (over
    the input `[bos] + encode(prompt)`), and its stats record the prompt
    token count and the consumed count. -/
theorem generate_tokens (M : Model) (P : Prims) (rng : ℕ → ℕ → (ℕ → ℚ) → ℕ)
    (tok : Tokenizer) (args : DriverArgs) :
    (generate M P rng tok args).2.1 =
      (List.range (max args.max_tokens.toNat 1)).map
        (fun n => Llama.genTok M P rng args.temp 1
          (tok.bos_id :: tok.encode args.prompt).length
          (fun _ l => (tok.bos_id :: tok.encode args.prompt).getD l 0) n 0) ∧
    (generate M P rng tok args).1.num_tokens_response = max args.max_tokens.toNat 1 ∧
    (generate M P rng tok args).1.num_tokens_prompt = (tok.encode args.prompt).length := by
  have h0 := genLoop_tokens
    (fun n => Llama.genTok M P rng args.temp 1 (tok.bos_id :: tok.encode args.prompt).length
      (fun _ l => (tok.bos_id :: tok.encode args.prompt).getD l 0) n 0)
    args.max_tokens args.write_every tok.decode 0 0 []
  simp only [List.range_zero, List.map_nil, Nat.zero_add] at h0
  refine ⟨?_, ?_, ?_⟩
  · simp only [generate]
    rw [h0]
  · simp only [generate]
    rw [h0]
    simp
  · simp [generate]

/-- C10: whenever `max_tokens ≤ 1` (including 0 and negative values) the
    driver still consumes exactly one token from the generation stream —
    the limit check runs only after the first append — and records
    `num_tokens_response = 1`. -/
theorem c10_min_one_token (M : Model) (P : Prims) (rng : ℕ → ℕ → (ℕ → ℚ) → ℕ)
    (tok : Tokenizer) (args : DriverArgs) (h : args.max_tokens ≤ 1) :
    (generate M P rng tok args).2.1 =
      [Llama.genTok M P rng args.temp 1 (tok.bos_id :: tok.encode args.prompt).length
        (fun _ l => (tok.bos_id :: tok.encode args.prompt).getD l 0) 0 0] ∧
    (generate M P rng tok args).1.num_tokens_response = 1 := by
  have hg := generate_tokens M P rng tok args
  have hmax : max args.max_tokens.toNat 1 = 1 := by omega
  rw [hmax] at hg
  refine ⟨?_, hg.2.1⟩
  rw [hg.1]
  rfl

/-- C10 witness: with `max_tokens = 0` the driver consumes exactly one
    token and reports one response token. -/
theorem c10_witness :
    (generate M0 P0 rng0 tokA dargs0).2.1 =
      [Llama.genTok M0 P0 rng0 dargs0.temp 1 (tokA.bos_id :: tokA.encode dargs0.prompt).length
        (fun _ l => (tokA.bos_id :: tokA.encode dargs0.prompt).getD l 0) 0 0] ∧
    (generate M0 P0 rng0 tokA dargs0).1.num_tokens_response = 1 :=
  c10_min_one_token M0 P0 rng0 tokA dargs0 (by decide)

/-- C4: with a tokenizer encoding the prompt to `[5, 9, 2]`, bos id 1,
    `max_tokens = 4` and a positive `write_every` (with `write_every = 0` the
    Python `%` raises `ZeroDivisionError` in the first loop iteration, a path
    outside the shallow embedding), the driver consumes exactly the first 4
    tokens of the generation stream over the 4-token input `[1, 5, 9, 2]`;
    the stream's first token is sampled from the prompt-ingestion logits of
    that whole input and each later one from a single-token decode step; the
    stats record 3 prompt tokens and 4 response tokens. -/
theorem c4_end_to_end (M : Model) (P : Prims) (rng : ℕ → ℕ → (ℕ → ℚ) → ℕ)
    (tok : Tokenizer) (args : DriverArgs) (_hw : 0 < args.write_every)
    (hbos : tok.bos_id = 1) (henc : tok.encode args.prompt = [5, 9, 2])
    (hmax : args.max_tokens = 4) (_htemp : args.temp = 0) :
    (generate M P rng tok args).2.1 =
      (List.range 4).map
        (fun n => Llama.genTok M P rng args.temp 1 4 (fun _ l => [1, 5, 9, 2].getD l 0) n 0) ∧
    Llama.genTok M P rng args.temp 1 4 (fun _ l => [1, 5, 9, 2].getD l 0) 0 =
      Llama.sample M args.temp rng 0
        (Llama.promptStep M P 1 4 (fun _ l => [1, 5, 9, 2].getD l 0)).1 ∧
    (∀ n, Llama.genTok M P rng args.temp 1 4 (fun _ l => [1, 5, 9, 2].getD l 0) (n + 1) =
      Llama.sample M args.temp rng (n + 1)
        (Llama.decodeStep M P 1
          (Llama.genState M P rng args.temp 1 4 (fun _ l => [1, 5, 9, 2].getD l 0) n).2
          (Llama.genState M P rng args.temp 1 4 (fun _ l => [1, 5, 9, 2].getD l 0) n).1).1) ∧
    (generate M P rng tok args).1.num_tokens_prompt = 3 ∧
    (generate M P rng tok args).1.num_tokens_response = 4 := by
  have hg := generate_tokens M P rng tok args
  rw [hbos, henc, hmax] at hg
  exact ⟨hg.1, rfl, fun n => rfl, hg.2.2, hg.2.1⟩

/-- C4 witness: the scenario at a concrete model, tokenizer and args
    (`write_every = 1`). -/
theorem c4_witness :
    0 < dargs4.write_every ∧
    (generate M0 P0 rng0 tok592 dargs4).2.1 =
      (List.range 4).map
        (fun n => Llama.genTok M0 P0 rng0 dargs4.temp 1 4 (fun _ l => [1, 5, 9, 2].getD l 0) n 0) ∧
    Llama.genTok M0 P0 rng0 dargs4.temp 1 4 (fun _ l => [1, 5, 9, 2].getD l 0) 0 =
      Llama.sample M0 dargs4.temp rng0 0
        (Llama.promptStep M0 P0 1 4 (fun _ l => [1, 5, 9, 2].getD l 0)).1 ∧
    Llama.genTok M0 P0 rng0 dargs4.temp 1 4 (fun _ l => [1, 5, 9, 2].getD l 0) 1 =
      Llama.sample M0 dargs4.temp rng0 1
        (Llama.decodeStep M0 P0 1
          (Llama.genState M0 P0 rng0 dargs4.temp 1 4 (fun _ l => [1, 5, 9, 2].getD l 0) 0).2
          (Llama.genState M0 P0 rng0 dargs4.temp 1 4 (fun _ l => [1, 5, 9, 2].getD l 0) 0).1).1 ∧
    (generate M0 P0 rng0 tok592 dargs4).1.num_tokens_prompt = 3 ∧
    (generate M0 P0 rng0 tok592 dargs4).1.num_tokens_response = 4 :=
  have h := c4_end_to_end M0 P0 rng0 tok592 dargs4 (by decide) rfl rfl rfl rfl
  ⟨by decide, h.1, h.2.1, h.2.2.1 0, h.2.2.2.1, h.2.2.2.2⟩

/-- C5 (code bug): when the prompt encodes to zero tokens the driver records
    `num_tokens_prompt = 0` and the statistics block of `__main__` then
    divides the prompt-eval time by that zero token count — there is no guard
    anywhere, so the per-token-rate computation raises `ZeroDivisionError`
    (modelled as `Except.error`). -/
theorem c5_zero_prompt_division :
    (generate M0 P0 rng0 tokA dargs1).1.num_tokens_prompt = 0 ∧
    statsReport 1 1 (generate M0 P0 rng0 tokA dargs1).1 = Except.error () :=
  ⟨rfl, rfl⟩

/-- The claim that the concatenation of all printed suffixes always equals the
    single decode of the final token sequence fails for a decoder that is not
    prefix-monotone: here `decode [t] = "ab"` but `decode [t, t'] = "xyz"`, so
    with `max_tokens = 2`, `write_every = 1` the driver prints `"ab"` and then
    the suffix `"z"`, and `"abz" ≠ "xyz"`. -/
theorem c7_counterexample :
    ¬ (((generate M0 P0 rng0 tok7 dargs2).2.2).flatten =
       tok7.decode (generate M0 P0 rng0 tok7 dargs2).2.1) := by
  simp [generate, genLoop, tok7, dargs2]

/-- Helper: gluing a shorter prefix of `x` to the matching tail of a longer
    prefix of `x` yields the longer prefix. -/
theorem take_append_drop_take (x : List Char) (skip m : ℕ) (h : skip ≤ m) :
    x.take skip ++ (x.take m).drop skip = x.take m := by
  have h1 : (x.take m).take skip = x.take skip := by
    rw [List.take_take, min_eq_left h]
  rw [← h1, List.take_append_drop]

/-- Helper: driver-loop print invariant.  If decoding is prefix-monotone on
    the streamed token prefixes up to the final count `K`, then from any state
    whose printed output is exactly the first `skip` characters of the final
    decode (with `skip` within the current decode), the loop ends with printed
    output equal to the first `skip'` characters of the final decode, where
    `skip'` is the final skip value, still within the final decode. -/
theorem genLoop_printed (s : ℕ → ℕ) (maxT : ℤ) (writeE : ℕ)
    (dec : List ℕ → List Char) (K : ℕ)
    (hmono : ∀ p q : ℕ, p ≤ q → q ≤ K →
      dec ((List.range p).map s) =
        (dec ((List.range q).map s)).take (dec ((List.range p).map s)).length) :
    ∀ (fuel n skip : ℕ) (printed : List (List Char)),
      (maxT - (n : ℤ)).toNat ≤ fuel →
      K = max maxT.toNat (n + 1) →
      printed.flatten = (dec ((List.range K).map s)).take skip →
      skip ≤ (dec ((List.range n).map s)).length →
      ((genLoop s maxT writeE dec ((List.range n).map s) skip printed).2.2).flatten =
        (dec ((List.range K).map s)).take
          (genLoop s maxT writeE dec ((List.range n).map s) skip printed).2.1 ∧
      (genLoop s maxT writeE dec ((List.range n).map s) skip printed).2.1 ≤
        (dec ((List.range K).map s)).length := by
  have hlenmono : ∀ p q : ℕ, p ≤ q → q ≤ K →
      (dec ((List.range p).map s)).length ≤ (dec ((List.range q).map s)).length := by
    intro p q h1 h2
    have h := congrArg List.length (hmono p q h1 h2)
    simp only [List.length_take] at h
    omega
  intro fuel
  induction fuel with
  | zero =>
    intro n skip printed hf hK hpr hsk
    rw [genLoop]
    simp only [List.length_append, List.length_map, List.length_range, List.length_cons,
      List.length_nil]
    rw [if_pos (by omega)]
    exact ⟨hpr, le_trans hsk (hlenmono n K (by omega) le_rfl)⟩
  | succ f ih =>
    intro n skip printed hf hK hpr hsk
    rw [genLoop]
    simp only [List.length_append, List.length_map, List.length_range, List.length_cons,
      List.length_nil, range_map_snoc]
    split_ifs with h1 h2
    · exact ⟨hpr, le_trans hsk (hlenmono n K (by omega) le_rfl)⟩
    · have hn1K : n + 1 ≤ K := by omega
      have hskip1 : skip ≤ (dec ((List.range (n + 1)).map s)).length :=
        le_trans hsk (hlenmono n (n + 1) (by omega) hn1K)
      refine ih (n + 1) _ _ (by omega) (by omega) ?_ le_rfl
      rw [List.flatten_append]
      simp only [List.flatten_cons, List.flatten_nil, List.append_nil]
      rw [hpr]
      conv_lhs => rw [hmono (n + 1) K hn1K le_rfl]
      exact take_append_drop_take _ skip _ hskip1
    · exact ih (n + 1) _ _ (by omega) (by omega) hpr
        (le_trans hsk (hlenmono n (n + 1) (by omega) (by omega)))

/-- C7 (amended): provided `write_every` is positive (`write_every = 0` makes
    the Python `%` raise) and the tokenizer's decoding is prefix-monotone on
    prefixes of the final token sequence — each earlier decode is a string
    prefix of each later decode, which is what the skip/delta mechanism
    assumes — the concatenation of all text suffixes the driver prints equals
    the single decode of the full final token sequence. -/
theorem c7_incremental_detok (M : Model) (P : Prims) (rng : ℕ → ℕ → (ℕ → ℚ) → ℕ)
    (tok : Tokenizer) (args : DriverArgs) (_hw : 0 < args.write_every)
    (hmono : ∀ p q : ℕ, p ≤ q → q ≤ (generate M P rng tok args).2.1.length →
      tok.decode ((generate M P rng tok args).2.1.take p) =
        (tok.decode ((generate M P rng tok args).2.1.take q)).take
          (tok.decode ((generate M P rng tok args).2.1.take p)).length) :
    ((generate M P rng tok args).2.2).flatten =
      tok.decode (generate M P rng tok args).2.1 := by
  have hg := (generate_tokens M P rng tok args).1
  have hlen : (generate M P rng tok args).2.1.length = max args.max_tokens.toNat 1 := by
    rw [hg]; simp
  have htake : ∀ p : ℕ, p ≤ max args.max_tokens.toNat 1 →
      (generate M P rng tok args).2.1.take p =
        (List.range p).map (fun n => Llama.genTok M P rng args.temp 1
          (tok.bos_id :: tok.encode args.prompt).length
          (fun _ l => (tok.bos_id :: tok.encode args.prompt).getD l 0) n 0) := by
    intro p hp
    rw [hg, ← List.map_take, List.take_range, min_eq_left hp]
  have hmono' : ∀ p q : ℕ, p ≤ q → q ≤ max args.max_tokens.toNat 1 →
      tok.decode ((List.range p).map (fun n => Llama.genTok M P rng args.temp 1
          (tok.bos_id :: tok.encode args.prompt).length
          (fun _ l => (tok.bos_id :: tok.encode args.prompt).getD l 0) n 0)) =
        (tok.decode ((List.range q).map (fun n => Llama.genTok M P rng args.temp 1
          (tok.bos_id :: tok.encode args.prompt).length
          (fun _ l => (tok.bos_id :: tok.encode args.prompt).getD l 0) n 0))).take
          (tok.decode ((List.range p).map (fun n => Llama.genTok M P rng args.temp 1
          (tok.bos_id :: tok.encode args.prompt).length
          (fun _ l => (tok.bos_id :: tok.encode args.prompt).getD l 0) n 0))).length := by
    intro p q h1 h2
    have h := hmono p q h1 (by omega)
    rw [htake p (by omega), htake q (by omega)] at h
    exact h
  have hloop := genLoop_printed
    (fun n => Llama.genTok M P rng args.temp 1
      (tok.bos_id :: tok.encode args.prompt).length
      (fun _ l => (tok.bos_id :: tok.encode args.prompt).getD l 0) n 0)
    args.max_tokens args.write_every tok.decode (max args.max_tokens.toNat 1) hmono'
    (args.max_tokens - (0 : ℤ)).toNat 0 0 [] le_rfl (by omega) (by simp) (by simp)
  have htokens := genLoop_tokens
    (fun n => Llama.genTok M P rng args.temp 1
      (tok.bos_id :: tok.encode args.prompt).length
      (fun _ l => (tok.bos_id :: tok.encode args.prompt).getD l 0) n 0)
    args.max_tokens args.write_every tok.decode 0 0 []
  simp only [List.range_zero, List.map_nil, Nat.zero_add] at hloop htokens
  simp only [generate]
  rw [List.flatten_append]
  simp only [List.flatten_cons, List.flatten_nil, List.append_nil]
  rw [htokens, hloop.1]
  exact List.take_append_drop _ _

/-- C7 witness: a prefix-monotone decoder (one `a` per token) at a concrete
    run. -/
theorem c7_witness :
    0 < dargs1.write_every ∧
    ((generate M0 P0 rng0 tokA dargs1).2.2).flatten =
      tokA.decode (generate M0 P0 rng0 tokA dargs1).2.1 :=
  ⟨by decide, c7_incremental_detok M0 P0 rng0 tokA dargs1 (by decide)
    (by
      intro p q h1 h2
      simp only [tokA, List.length_take, List.take_replicate, List.length_replicate]
      congr 1
      omega)⟩

/-- Helper: `applyLinear` only reads its input at the given (batch, position)
    row, so equal rows give equal outputs. -/
theorem applyLinear_congr (Wm : ℕ → ℕ → ℚ) (dim : ℕ) (x y : H3) (b l b' l' : ℕ)
    (h : ∀ i, x b l i = y b' l' i) (o : ℕ) :
    applyLinear Wm dim x b l o = applyLinear Wm dim y b' l' o :=
  Finset.sum_congr rfl (fun d _ => by rw [h d])

/-- Helper: `rmsnorm` only reads its input at the given row. -/
theorem rmsnorm_congr (dim : ℕ) (eps : ℚ) (P : Prims) (w : ℕ → ℚ) (x y : H3)
    (b l b' l' : ℕ) (h : ∀ i, x b l i = y b' l' i) (d : ℕ) :
    rmsnorm dim eps P w x b l d = rmsnorm dim eps P w y b' l' d := by
  unfold rmsnorm
  have hs : ∑ i ∈ Finset.range dim, x b l i ^ 2 = ∑ i ∈ Finset.range dim, y b' l' i ^ 2 :=
    Finset.sum_congr rfl (fun i _ => by rw [h i])
  rw [h d, hs]

/-- Helper: `ropeApply` is pointwise in its vector argument. -/
theorem ropeApply_congr (P : Prims) (trad : Bool) (dims pos : ℕ) (v v' : ℕ → ℚ)
    (hv : ∀ i, v i = v' i) (e : ℕ) :
    ropeApply P trad dims pos v e = ropeApply P trad dims pos v' e := by
  rw [funext hv]

/-- Helper: `FeedForward.call` only reads its input at the given row. -/
theorem FeedForward_congr (a : ModelArgs) (W : LayerWeights) (P : Prims) (x y : H3)
    (b l b' l' : ℕ) (h : ∀ i, x b l i = y b' l' i) (d : ℕ) :
    FeedForward.call a W P x b l d = FeedForward.call a W P y b' l' d := by
  unfold FeedForward.call
  apply Finset.sum_congr rfl
  intro m _
  rw [applyLinear_congr W.w1 a.dim x y b l b' l' h m,
      applyLinear_congr W.w3 a.dim x y b l b' l' h m]

/-- Helper: a softmax-weighted sum is unchanged when the two sides admit the
    same set of columns and agree, on the admitted columns, in scores and in
    weighted values (a masked-out column contributes nothing). -/
theorem softmax_weighted_sum_congr (P : Prims)
    (n₁ n₂ : ℕ) (al₁ al₂ : ℕ → Bool) (s₁ s₂ u₁ u₂ : ℕ → ℚ)
    (hS : (Finset.range n₁).filter (fun j => al₁ j = true) =
          (Finset.range n₂).filter (fun j => al₂ j = true))
    (hs : ∀ j ∈ (Finset.range n₂).filter (fun j => al₂ j = true), s₁ j = s₂ j)
    (hu : ∀ j ∈ (Finset.range n₂).filter (fun j => al₂ j = true), u₁ j = u₂ j) :
    ∑ k ∈ Finset.range n₁, maskedSoftmax P n₁ al₁ s₁ k * u₁ k =
    ∑ k ∈ Finset.range n₂, maskedSoftmax P n₂ al₂ s₂ k * u₂ k := by
  have expand : ∀ (n : ℕ) (al : ℕ → Bool) (s u : ℕ → ℚ),
      ∑ k ∈ Finset.range n, maskedSoftmax P n al s k * u k =
      ∑ k ∈ (Finset.range n).filter (fun j => al j = true),
        (P.exp (s k) / ∑ j ∈ (Finset.range n).filter (fun j => al j = true), P.exp (s j))
          * u k := by
    intro n al s u
    rw [Finset.sum_filter]
    apply Finset.sum_congr rfl
    intro k _
    unfold maskedSoftmax
    by_cases h : al k = true <;> simp [h]
  rw [expand, expand, hS]
  have hden : ∑ j ∈ (Finset.range n₂).filter (fun j => al₂ j = true), P.exp (s₁ j) =
      ∑ j ∈ (Finset.range n₂).filter (fun j => al₂ j = true), P.exp (s₂ j) :=
    Finset.sum_congr rfl (fun j hj => by rw [hs j hj])
  apply Finset.sum_congr rfl
  intro k hk
  rw [hs k hk, hu k hk, hden]

theorem attn_equiv (a : ModelArgs) (W : LayerWeights) (P : Prims) (B L : ℕ)
    (xF xP xD : H3)
    (hA : ∀ b l d, l < L → xF b l d = xP b l d)
    (hD : ∀ b d, xF b L d = xD b 0 d) :
    (∀ b l d, l < L →
      (Attention.call a W P B (L + 1) xF true none).1 b l d =
        (Attention.call a W P B L xP true none).1 b l d) ∧
    (∀ b d,
      (Attention.call a W P B (L + 1) xF true none).1 b L d =
        (Attention.call a W P B 1 xD false
          (some (Attention.call a W P B L xP true none).2)).1 b 0 d) := by
  constructor
  · intro b l d hl
    simp only [Attention.call]
    apply applyLinear_congr
    intro o
    simp only [attnMerge, attnWeights, Bool.not_true, Bool.false_or, ropeArr, repeatKV,
      splitHeads, Nat.zero_add, Nat.add_zero, Arr4.concat2]
    apply softmax_weighted_sum_congr
    · ext j
      simp only [Finset.mem_filter, Finset.mem_range, decide_eq_true_eq]
      omega
    · intro j hj
      simp only [Finset.mem_filter, Finset.mem_range, decide_eq_true_eq] at hj
      simp only [attnScores]
      apply Finset.sum_congr rfl
      intro e _
      have hq := ropeApply_congr P a.rope_traditional a.head_dim l
        (fun i => applyLinear W.wq a.dim xF b l (o / a.head_dim * a.head_dim + i))
        (fun i => applyLinear W.wq a.dim xP b l (o / a.head_dim * a.head_dim + i))
        (fun i => applyLinear_congr _ _ _ _ _ _ _ _ (fun i' => hA b l i' hl) _) e
      have hk := ropeApply_congr P a.rope_traditional a.head_dim j
        (fun i => applyLinear W.wk a.dim xF b j
          (o / a.head_dim / (a.n_heads / a.n_kv_heads) * a.head_dim + i))
        (fun i => applyLinear W.wk a.dim xP b j
          (o / a.head_dim / (a.n_heads / a.n_kv_heads) * a.head_dim + i))
        (fun i => applyLinear_congr _ _ _ _ _ _ _ _ (fun i' => hA b j i' (by omega)) _) e
      rw [hq, hk]
    · intro j hj
      simp only [Finset.mem_filter, Finset.mem_range, decide_eq_true_eq] at hj
      exact applyLinear_congr _ _ _ _ _ _ _ _ (fun i' => hA b j i' (by omega)) _
  · intro b d
    simp only [Attention.call]
    apply applyLinear_congr
    intro o
    simp only [attnMerge, attnWeights, Bool.not_true, Bool.false_or, Bool.not_false,
      Bool.true_or, ropeArr, repeatKV, splitHeads, Nat.zero_add, Nat.add_zero, Arr4.concat2]
    apply softmax_weighted_sum_congr
    · ext j
      simp only [Finset.mem_filter, Finset.mem_range, decide_eq_true_eq, and_true]
      omega
    · intro j hj
      simp only [Finset.mem_filter, Finset.mem_range] at hj
      simp only [attnScores, Nat.add_zero]
      apply Finset.sum_congr rfl
      intro e _
      congr 1
      · congr 1
        exact ropeApply_congr _ _ _ _ _ _
          (fun i => applyLinear_congr _ _ _ _ _ _ _ _ (fun i' => hD b i') _) e
      · by_cases hjL : j < L
        · rw [if_pos hjL]
          exact ropeApply_congr _ _ _ _ _ _
            (fun i => applyLinear_congr _ _ _ _ _ _ _ _ (fun i' => hA b j i' hjL) _) e
        · have hje : j = L := by omega
          subst hje
          rw [if_neg hjL]
          simp only [Nat.sub_self, Nat.add_zero]
          exact ropeApply_congr _ _ _ _ _ _
            (fun i => applyLinear_congr _ _ _ _ _ _ _ _ (fun i' => hD b i') _) e
    · intro j hj
      simp only [Finset.mem_filter, Finset.mem_range] at hj
      by_cases hjL : j < L
      · rw [if_pos hjL]
        exact applyLinear_congr _ _ _ _ _ _ _ _ (fun i' => hA b j i' hjL) _
      · have hje : j = L := by omega
        subst hje
        rw [if_neg hjL]
        simp only [Nat.sub_self]
        exact applyLinear_congr _ _ _ _ _ _ _ _ (fun i' => hD b i') _

theorem block_equiv (a : ModelArgs) (W : LayerWeights) (P : Prims) (B L : ℕ)
    (xF xP xD : H3)
    (hA : ∀ b l d, l < L → xF b l d = xP b l d)
    (hD : ∀ b d, xF b L d = xD b 0 d) :
    (∀ b l d, l < L →
      (TransformerBlock.call a W P B (L + 1) xF true none).1 b l d =
        (TransformerBlock.call a W P B L xP true none).1 b l d) ∧
    (∀ b d,
      (TransformerBlock.call a W P B (L + 1) xF true none).1 b L d =
        (TransformerBlock.call a W P B 1 xD false
          (some (TransformerBlock.call a W P B L xP true none).2)).1 b 0 d) := by
  have hattn := attn_equiv a W P B L
    (rmsnorm a.dim a.norm_eps P W.attention_norm xF)
    (rmsnorm a.dim a.norm_eps P W.attention_norm xP)
    (rmsnorm a.dim a.norm_eps P W.attention_norm xD)
    (fun b l d hl => rmsnorm_congr _ _ _ _ _ _ _ _ _ _ (fun i => hA b l i hl) d)
    (fun b d => rmsnorm_congr _ _ _ _ _ _ _ _ _ _ (fun i => hD b i) d)
  constructor
  · intro b l d hl
    simp only [TransformerBlock.call]
    congr 1
    · rw [hA b l d hl, hattn.1 b l d hl]
    · exact FeedForward_congr a W P _ _ b l b l
        (fun i => rmsnorm_congr _ _ _ _ _ _ _ _ _ _
          (fun i' => congrArg₂ (fun u v => u + v) (hA b l i' hl) (hattn.1 b l i' hl)) i) d
  · intro b d
    simp only [TransformerBlock.call]
    congr 1
    · rw [hD b d, hattn.2 b d]
    · exact FeedForward_congr a W P _ _ b L b 0
        (fun i => rmsnorm_congr _ _ _ _ _ _ _ _ _ _
          (fun i' => congrArg₂ (fun u v => u + v) (hD b i') (hattn.2 b i')) i) d

theorem runLayers_equiv (a : ModelArgs) (P : Prims) (B L : ℕ)
    (Ws : List LayerWeights) (xF xP xD : H3)
    (hA : ∀ b l d, l < L → xF b l d = xP b l d)
    (hD : ∀ b d, xF b L d = xD b 0 d) :
    (∀ b l d, l < L →
      (runLayers a P B (L + 1) true (Ws.map (fun W => (W, none))) xF).1 b l d =
        (runLayers a P B L true (Ws.map (fun W => (W, none))) xP).1 b l d) ∧
    (∀ b d,
      (runLayers a P B (L + 1) true (Ws.map (fun W => (W, none))) xF).1 b L d =
        (runLayers a P B 1 false
          (Ws.zip (((runLayers a P B L true (Ws.map (fun W => (W, none))) xP).2).map some))
          xD).1 b 0 d) := by
  induction Ws generalizing xF xP xD with
  | nil => exact ⟨fun b l d hl => hA b l d hl, fun b d => hD b d⟩
  | cons W tl ih =>
    have hb := block_equiv a W P B L xF xP xD hA hD
    have ihh := ih
      (TransformerBlock.call a W P B (L + 1) xF true none).1
      (TransformerBlock.call a W P B L xP true none).1
      (TransformerBlock.call a W P B 1 xD false
        (some (TransformerBlock.call a W P B L xP true none).2)).1
      hb.1 hb.2
    constructor
    · intro b l d hl
      simp only [List.map_cons, runLayers]
      exact ihh.1 b l d hl
    · intro b d
      simp only [List.map_cons, runLayers, List.zip_cons_cons]
      exact ihh.2 b d

/-- C1: for every prompt of length `L + 1` and the same weights, the logits
    `Llama.__call__` (full-forward mode) produces at position `L` equal the
    logits of one decode step on the prompt's last token using the caches
    populated by prompt ingestion of `Llama.generate` over the first `L`
    tokens.  In the exact-arithmetic model the equality is exact, for every
    interpretation of the numeric primitives. -/
theorem c1_cache_equivalence (M : Model) (P : Prims) (B L : ℕ) (x : ℕ → ℕ → ℕ)
    (b v : ℕ) :
    Llama.call M P B (L + 1) x b L v =
      (Llama.decodeStep M P B (Llama.promptStep M P B L x).2 (fun b' => x b' L)).1 b v := by
  have h := runLayers_equiv M.args P B L M.layers (Llama.embed M x) (Llama.embed M x)
    (fun b' _ d => M.tok_embeddings (x b' L) d) (fun _ _ _ _ => rfl) (fun _ _ => rfl)
  simp only [Llama.call, Llama.promptStep, Llama.decodeStep, Llama.embed]
  apply Finset.sum_congr rfl
  intro d _
  rw [rmsnorm_congr M.args.dim M.args.norm_eps P M.norm _ _ b L b 0 (fun i => h.2 b i) d]
